import Mathlib

/-!
Verification of the Tron templating engine (`src/lib.rs`) against its
specification.  The engine is embedded shallowly: strings are `List Char`,
the `HashMap<String, String>` of placeholders is an association list with
unique keys (the map's iteration order is unspecified in the source; the
model fixes first-insertion order, one admissible order), and fallible
operations return `Except`.  Methods taking `&mut self` in Rust are modelled
state-passing style: they return the post-call state together with the
result, so that partial-mutation behaviour on failure is captured exactly.
-/

namespace Tron

/-- Strings are modelled as lists of characters. -/
abbrev Str := List Char

/-- Model of Rust `str::trim`: removes leading and trailing whitespace
(modelling `char::is_whitespace` by `Char.isWhitespace`). -/
def trim (s : Str) : Str :=
  ((s.dropWhile Char.isWhitespace).reverse.dropWhile Char.isWhitespace).reverse

/-- Does `pat` occur at the head of `s`? -/
def startsWith : Str → Str → Bool
  | [], _ => true
  | _ :: _, [] => false
  | p :: ps, c :: cs => p = c && startsWith ps cs

/-- Does `pat` occur anywhere in `s` (as a contiguous substring)? -/
def occursIn (pat : Str) : Str → Bool
  | [] => startsWith pat []
  | c :: rest => startsWith pat (c :: rest) || occursIn pat rest

/-- Model of Rust `str::replace`: replaces every non-overlapping occurrence
of `pat` from left to right, resuming the scan after the substituted text.
(Rust's behaviour on an empty pattern differs, but every pattern built by
`render` starts with `@[`, hence is nonempty, so the empty case is never
reached from the embedded code.) -/
def replaceAll (pat sub : Str) : Str → Str
  | [] => []
  | c :: rest =>
    if h : pat ≠ [] ∧ startsWith pat (c :: rest) then
      sub ++ replaceAll pat sub ((c :: rest).drop pat.length)
    else
      c :: replaceAll pat sub rest
termination_by s => s.length
decreasing_by
  · have hp : 0 < pat.length := List.length_pos.mpr h.1
    simp only [List.length_drop, List.length_cons]
    omega
  · simp

/-- The literal search pattern `@[name]@` built by `TronTemplate::render`
(Rust: `format!("@[{}]@", placeholder)`). -/
def marker (k : Str) : Str := '@' :: '[' :: (k ++ [']', '@'])

/-- Recognises the close delimiter `]@` at the head of a string. -/
def isClose : Str → Bool
  | ']' :: '@' :: _ => true
  | _ => false

/-- Model of scanning `content` with the regex `@\[([^]]+)\]@`
(`TronTemplate::extract_placeholders`): leftmost, non-overlapping matches;
a match is `@[`, then one or more characters other than `]`, then `]@`.
Returns the captured (untrimmed) names in match order. -/
def scanPH : Str → List Str
  | '@' :: '[' :: rest =>
    let name := rest.takeWhile (fun c => c != ']')
    let tail := rest.dropWhile (fun c => c != ']')
    if name ≠ [] ∧ isClose tail then
      name :: scanPH (tail.drop 2)
    else
      -- the regex restarts matching at the next character position
      scanPH ('[' :: rest)
  | _ :: rest => scanPH rest
  | [] => []
termination_by s => s.length
decreasing_by
  · have h1 : (List.dropWhile (fun c => c != ']') rest).length ≤ rest.length :=
      (List.dropWhile_sublist _).length_le
    simp only [List.length_drop, List.length_cons]
    omega
  · simp
  · simp

/-- The error type `TronError` of `src/lib.rs`.  The `Io` payload
(`std::io::Error`) is opaque to the core and modelled as a string; only
`MissingPlaceholder` is reachable from the embedded core operations. -/
inductive TronError where
  | Io (msg : Str)
  | Parse (msg : Str)
  | MissingPlaceholder (name : Str)
  | InvalidSyntax (msg : Str)
  | ExecutionError (msg : Str)
deriving DecidableEq, Repr

/-- The placeholder map: `HashMap<String, String>` modelled as an
association list with unique keys, iterated in first-insertion order
(the `HashMap` iteration order is unspecified; this fixes one order). -/
abbrev PHMap := List (Str × Str)

/-- Keys of the placeholder map. -/
def keysOf (m : PHMap) : List Str := m.map Prod.fst

/-- Model of `HashMap::contains_key`. -/
def hasKey (m : PHMap) (k : Str) : Bool := m.any (fun p => p.1 = k)

/-- Model of `HashMap::insert` for a key known to be present: overwrites the
value in place (the key's iteration position is unchanged). -/
def setKey (m : PHMap) (k v : Str) : PHMap :=
  m.map (fun p => if p.1 = k then (k, v) else p)

/-- Model of `HashMap::insert` during extraction: inserts `k` with the
empty-string unbound sentinel; a duplicate key collapses to one entry. -/
def insertPH (m : PHMap) (k : Str) : PHMap :=
  if hasKey m k then m else m ++ [(k, [])]

/-- Model of `TronTemplate::extract_placeholders`: every regex capture,
trimmed, becomes a key with the empty-string value. -/
def extractPlaceholders (content : Str) : PHMap :=
  (scanPH content).foldl (fun m n => insertPH m (trim n)) []

/-- Model of `TronTemplate`.  The `path : Option<PathBuf>` field only
records the file origin (excluded I/O collaborator) and plays no part in
any core operation, so it is omitted. -/
structure TronTemplate where
  content : Str
  placeholders : PHMap
deriving DecidableEq, Repr

/-- Model of `TronTemplate::new` (the Rust `Result` is always `Ok`: the
pattern scan never errors). -/
def TronTemplate.new (content : Str) : TronTemplate :=
  { content := content, placeholders := extractPlaceholders content }

/-- Model of `TronTemplate::set` (`&mut self`): returns the post-call state
together with the result, mirroring in-place mutation. -/
def TronTemplate.set (t : TronTemplate) (k v : Str) :
    TronTemplate × Except TronError Unit :=
  if hasKey t.placeholders k then
    ({ t with placeholders := setKey t.placeholders k v }, Except.ok ())
  else
    (t, Except.error (TronError.MissingPlaceholder k))

/-- The loop body of `TronTemplate::render`: for each `(name, value)` pair
in iteration order, fail if `value` is empty, else replace every literal
occurrence of `@[name]@` in the accumulator by `value`. -/
def renderLoop : PHMap → Str → Except TronError Str
  | [], acc => Except.ok acc
  | (k, v) :: rest, acc =>
    if v = [] then Except.error (TronError.MissingPlaceholder k)
    else renderLoop rest (replaceAll (marker k) v acc)

/-- Model of `TronTemplate::render` (`&self`, pure). -/
def TronTemplate.render (t : TronTemplate) : Except TronError Str :=
  renderLoop t.placeholders t.content

/-- The pure substitution `render` performs on the happy path: fold the
per-entry replacement over the placeholder list in iteration order. -/
def substAll (ps : PHMap) (content : Str) : Str :=
  ps.foldl (fun acc p => replaceAll (marker p.1) p.2 acc) content

/-- Model of `TronRef`: a template plus an ordered dependency list. -/
structure TronRef where
  template : TronTemplate
  dependencies : List Str
deriving DecidableEq, Repr

/-- Model of `TronRef::new`. -/
def TronRef.new (t : TronTemplate) : TronRef :=
  { template := t, dependencies := [] }

/-- Model of `TronRef::with_dependency` (consuming builder). -/
def TronRef.with_dependency (r : TronRef) (d : Str) : TronRef :=
  { r with dependencies := r.dependencies ++ [d] }

/-- Model of `TronRef::set`: delegates to the wrapped template. -/
def TronRef.set (r : TronRef) (k v : Str) : TronRef × Except TronError Unit :=
  let (t, res) := r.template.set k v
  ({ r with template := t }, res)

/-- Model of `TronRef::render` (`&self`, pure). -/
def TronRef.render (r : TronRef) : Except TronError Str :=
  r.template.render

/-- Model of `TronRef::set_ref`: render the child, bind the rendered string,
then append the child's dependencies.  Each `?` early return leaves the
state mutated exactly as far as the Rust code had mutated it. -/
def TronRef.set_ref (r : TronRef) (k : Str) (other : TronRef) :
    TronRef × Except TronError Unit :=
  match other.template.render with
  | Except.error e => (r, Except.error e)
  | Except.ok rendered =>
    let (t, res) := r.template.set k rendered
    match res with
    | Except.error e => ({ r with template := t }, Except.error e)
    | Except.ok _ =>
      ({ template := t, dependencies := r.dependencies ++ other.dependencies },
        Except.ok ())

/-- Model of `TronAssembler`. -/
structure TronAssembler where
  templates : List TronRef
deriving DecidableEq, Repr

/-- Model of `TronAssembler::new`. -/
def TronAssembler.new : TronAssembler := { templates := [] }

/-- Model of `TronAssembler::add_template`. -/
def TronAssembler.add_template (a : TronAssembler) (r : TronRef) : TronAssembler :=
  { templates := a.templates ++ [r] }

/-- Does the handle's wrapped template declare placeholder `k`?
(the guard `template.inner().placeholders.contains_key(placeholder)`). -/
def declares (r : TronRef) (k : Str) : Bool := hasKey r.template.placeholders k

/-- The loop of `TronAssembler::set_global`: handles declaring `k` are
bound, the rest are skipped; a failing bind aborts the loop, leaving the
earlier handles already mutated. -/
def setGlobalLoop (k v : Str) : List TronRef → List TronRef × Except TronError Unit
  | [] => ([], Except.ok ())
  | r :: rest =>
    if declares r k then
      match r.set k v with
      | (r', Except.error e) => (r' :: rest, Except.error e)
      | (r', Except.ok _) =>
        let (rest', res) := setGlobalLoop k v rest
        (r' :: rest', res)
    else
      let (rest', res) := setGlobalLoop k v rest
      (r :: rest', res)

/-- Model of `TronAssembler::set_global` (`&mut self`). -/
def TronAssembler.set_global (a : TronAssembler) (k v : Str) :
    TronAssembler × Except TronError Unit :=
  let (ts, res) := setGlobalLoop k v a.templates
  ({ templates := ts }, res)

/-- The loop of `TronAssembler::set_ref_global`: each eligible handle
composes its own clone of the child reference. -/
def setRefGlobalLoop (k : Str) (o : TronRef) :
    List TronRef → List TronRef × Except TronError Unit
  | [] => ([], Except.ok ())
  | r :: rest =>
    if declares r k then
      match r.set_ref k o with
      | (r', Except.error e) => (r' :: rest, Except.error e)
      | (r', Except.ok _) =>
        let (rest', res) := setRefGlobalLoop k o rest
        (r' :: rest', res)
    else
      let (rest', res) := setRefGlobalLoop k o rest
      (r :: rest', res)

/-- Model of `TronAssembler::set_ref_global` (`&mut self`). -/
def TronAssembler.set_ref_global (a : TronAssembler) (k : Str) (o : TronRef) :
    TronAssembler × Except TronError Unit :=
  let (ts, res) := setRefGlobalLoop k o a.templates
  ({ templates := ts }, res)

/-- The loop of `TronAssembler::render_all`: append each handle's render
followed by a newline; the first render failure aborts the loop. -/
def renderAllLoop : List TronRef → Str → Except TronError Str
  | [], acc => Except.ok acc
  | r :: rest, acc =>
    match r.render with
    | Except.error e => Except.error e
    | Except.ok s => renderAllLoop rest (acc ++ s ++ ['\n'])

/-- Model of `TronAssembler::render_all` (`&self`, pure). -/
def TronAssembler.render_all (a : TronAssembler) : Except TronError Str :=
  renderAllLoop a.templates []

/-- The effect of a successful bind on one handle: the placeholder's value
is overwritten, everything else is unchanged.  Used to state what the
assembler's broadcast bind does to each eligible handle. -/
def bindValue (r : TronRef) (k v : Str) : TronRef :=
  { r with template :=
      { r.template with placeholders := setKey r.template.placeholders k v } }

/-! ### Helper lemmas -/

theorem hasKey_iff_mem {m : PHMap} {k : Str} :
    hasKey m k = true ↔ k ∈ keysOf m := by
  unfold hasKey keysOf
  rw [List.any_eq_true]
  constructor
  · rintro ⟨p, hp, hpk⟩
    have hk : p.1 = k := by simpa using hpk
    exact hk ▸ List.mem_map_of_mem Prod.fst hp
  · intro hk
    rcases List.mem_map.mp hk with ⟨p, hp, rfl⟩
    exact ⟨p, hp, by simp⟩

theorem keysOf_setKey (m : PHMap) (k v : Str) :
    keysOf (setKey m k v) = keysOf m := by
  induction m with
  | nil => rfl
  | cons p rest ih =>
    simp only [setKey, keysOf, List.map_cons] at *
    by_cases h : p.1 = k
    · simp [h, ih]
    · simp [h, ih]

theorem set_of_hasKey {t : TronTemplate} {k : Str} (v : Str)
    (h : hasKey t.placeholders k = true) :
    t.set k v = ({ t with placeholders := setKey t.placeholders k v },
      Except.ok ()) := by
  simp [TronTemplate.set, h]

theorem set_of_not_hasKey {t : TronTemplate} {k : Str} (v : Str)
    (h : hasKey t.placeholders k = false) :
    t.set k v = (t, Except.error (TronError.MissingPlaceholder k)) := by
  simp [TronTemplate.set, h]

theorem set_fst_spec (t : TronTemplate) (k v : Str) :
    (t.set k v).1.content = t.content ∧
      keysOf (t.set k v).1.placeholders = keysOf t.placeholders := by
  by_cases h : hasKey t.placeholders k
  · simp [set_of_hasKey v h, keysOf_setKey]
  · simp [set_of_not_hasKey v (Bool.of_not_eq_true h)]

theorem set_snd_error {t : TronTemplate} {k v : Str} {e : TronError}
    (h : (t.set k v).2 = Except.error e) : (t.set k v).1 = t := by
  by_cases hk : hasKey t.placeholders k
  · rw [set_of_hasKey v hk] at h
    exact absurd h (by simp)
  · rw [set_of_not_hasKey v (Bool.of_not_eq_true hk)]

theorem renderLoop_ok (ps : PHMap) (acc : Str)
    (h : ∀ p ∈ ps, p.2 ≠ []) :
    renderLoop ps acc = Except.ok (substAll ps acc) := by
  induction ps generalizing acc with
  | nil => rfl
  | cons p rest ih =>
    obtain ⟨k, v⟩ := p
    have hv : v ≠ [] := h (k, v) (List.mem_cons_self _ _)
    simp only [renderLoop, if_neg hv, substAll, List.foldl_cons]
    exact ih _ (fun q hq => h q (List.mem_cons_of_mem _ hq))

theorem renderLoop_err (ps : PHMap) (acc : Str)
    (h : ∃ p ∈ ps, p.2 = []) :
    ∃ k, renderLoop ps acc = Except.error (TronError.MissingPlaceholder k) ∧
      (k, []) ∈ ps := by
  induction ps generalizing acc with
  | nil => simp at h
  | cons p rest ih =>
    obtain ⟨k, v⟩ := p
    by_cases hv : v = []
    · subst hv
      exact ⟨k, by simp [renderLoop], List.mem_cons_self _ _⟩
    · simp only [renderLoop, if_neg hv]
      have h' : ∃ q ∈ rest, q.2 = [] := by
        rcases h with ⟨q, hq, hq2⟩
        rcases List.mem_cons.mp hq with rfl | hmem
        · exact absurd hq2 hv
        · exact ⟨q, hmem, hq2⟩
      obtain ⟨k', hk', hmem⟩ := ih _ h'
      exact ⟨k', hk', List.mem_cons_of_mem _ hmem⟩

theorem set_ref_fst_spec (r : TronRef) (k : Str) (o : TronRef) :
    (r.set_ref k o).1.template.content = r.template.content ∧
      keysOf (r.set_ref k o).1.template.placeholders =
        keysOf r.template.placeholders := by
  unfold TronRef.set_ref
  cases ho : o.template.render with
  | error e => exact ⟨rfl, rfl⟩
  | ok rendered =>
    have hs := set_fst_spec r.template k rendered
    cases hres : (r.template.set k rendered).2 with
    | error e =>
      simpa [hres] using hs
    | ok u =>
      simpa [hres] using hs

theorem set_ref_error_spec {r : TronRef} {k : Str} {o : TronRef} {e : TronError}
    (h : (r.set_ref k o).2 = Except.error e) : (r.set_ref k o).1 = r := by
  unfold TronRef.set_ref at *
  cases ho : o.template.render with
  | error e' => simp [ho]
  | ok rendered =>
    rw [ho] at h
    cases hres : (r.template.set k rendered).2 with
    | error e' =>
      have h1 : (r.template.set k rendered).1 = r.template := set_snd_error hres
      simp [hres, h1]
    | ok u => simp [hres] at h

theorem set_ref_ok_spec {r : TronRef} {k : Str} {o : TronRef}
    (h : (r.set_ref k o).2 = Except.ok ()) :
    ∃ rendered, o.template.render = Except.ok rendered ∧
      (r.set_ref k o).1 =
        { template := (r.template.set k rendered).1,
          dependencies := r.dependencies ++ o.dependencies } ∧
      (r.template.set k rendered).2 = Except.ok () := by
  unfold TronRef.set_ref at *
  cases ho : o.template.render with
  | error e' => rw [ho] at h; simp at h
  | ok rendered =>
    rcases hset : r.template.set k rendered with ⟨t, res⟩
    simp only [ho, hset] at h ⊢
    cases res with
    | error e' => simp at h
    | ok u => exact ⟨rendered, rfl, by simp [hset], by simp [hset]⟩

theorem keysOf_insertPH_toFinset (m : PHMap) (k : Str) :
    (keysOf (insertPH m k)).toFinset = insert k (keysOf m).toFinset := by
  unfold insertPH
  by_cases h : hasKey m k
  · rw [if_pos h]
    have hk : k ∈ (keysOf m).toFinset := List.mem_toFinset.mpr (hasKey_iff_mem.mp h)
    exact (Finset.insert_eq_self.mpr hk).symm
  · rw [if_neg h]
    simp only [keysOf, List.map_append, List.map_cons, List.map_nil,
      List.toFinset_append]
    rw [Finset.union_comm]
    simp only [List.toFinset_cons, List.toFinset_nil, keysOf,
      Finset.insert_union, Finset.empty_union]

theorem extract_foldl_toFinset (ns : List Str) (m : PHMap) :
    (keysOf (ns.foldl (fun m n => insertPH m (trim n)) m)).toFinset =
      (keysOf m).toFinset ∪ (ns.map trim).toFinset := by
  induction ns generalizing m with
  | nil => simp
  | cons n rest ih =>
    simp only [List.foldl_cons, List.map_cons, List.toFinset_cons]
    rw [ih, keysOf_insertPH_toFinset]
    rw [Finset.insert_union, Finset.union_insert]

theorem nodup_keysOf_insertPH {m : PHMap} (hm : (keysOf m).Nodup) (k : Str) :
    (keysOf (insertPH m k)).Nodup := by
  unfold insertPH
  by_cases h : hasKey m k
  · rwa [if_pos h]
  · rw [if_neg h]
    have hk : k ∉ keysOf m := fun hmem =>
      h (hasKey_iff_mem.mpr hmem)
    simp only [keysOf, List.map_append, List.map_cons, List.map_nil]
    rw [List.nodup_append]
    exact ⟨hm, List.nodup_singleton k, by
      intro a ha hb
      simp only [List.mem_singleton] at hb
      exact hk (hb ▸ ha)⟩

theorem nodup_keysOf_extract_foldl (ns : List Str) (m : PHMap)
    (hm : (keysOf m).Nodup) :
    (keysOf (ns.foldl (fun m n => insertPH m (trim n)) m)).Nodup := by
  induction ns generalizing m with
  | nil => exact hm
  | cons n rest ih =>
    exact ih _ (nodup_keysOf_insertPH hm (trim n))

theorem ref_set_of_declares {r : TronRef} {k : Str} (v : Str)
    (h : declares r k = true) :
    r.set k v = (bindValue r k v, Except.ok ()) := by
  unfold TronRef.set bindValue
  rw [set_of_hasKey v h]

theorem setGlobalLoop_spec (k v : Str) (ts : List TronRef) :
    setGlobalLoop k v ts =
      (ts.map (fun r => if declares r k then bindValue r k v else r),
        Except.ok ()) := by
  induction ts with
  | nil => rfl
  | cons r rest ih =>
    simp only [setGlobalLoop, List.map_cons]
    by_cases h : declares r k
    · rw [ref_set_of_declares v h, ih]
      simp [h]
    · rw [if_neg h, if_neg h, ih]

theorem renderAllLoop_ok (ts : List TronRef) (outs : List Str) (acc : Str)
    (h : ts.map TronRef.render = outs.map Except.ok) :
    renderAllLoop ts acc =
      Except.ok (acc ++ (outs.map (fun s => s ++ ['\n'])).flatten) := by
  induction ts generalizing outs acc with
  | nil =>
    cases outs with
    | nil => simp [renderAllLoop]
    | cons o os => simp at h
  | cons r rest ih =>
    cases outs with
    | nil => simp at h
    | cons o os =>
      simp only [List.map_cons, List.cons.injEq] at h
      simp only [renderAllLoop, h.1, List.map_cons, List.flatten]
      rw [ih os _ h.2]
      simp [List.append_assoc]

theorem renderAllLoop_err (ts1 : List TronRef) (r : TronRef)
    (ts2 : List TronRef) (e : TronError) (acc : Str)
    (h1 : ∀ x ∈ ts1, ∃ s, x.render = Except.ok s)
    (h2 : r.render = Except.error e) :
    renderAllLoop (ts1 ++ r :: ts2) acc = Except.error e := by
  induction ts1 generalizing acc with
  | nil => simp [renderAllLoop, h2]
  | cons x rest ih =>
    obtain ⟨s, hs⟩ := h1 x (List.mem_cons_self _ _)
    simp only [List.cons_append, renderAllLoop, hs]
    exact ih _ (fun y hy => h1 y (List.mem_cons_of_mem _ hy))

theorem set_ref_fst_template_eq (r : TronRef) (k : Str) (o : TronRef) :
    ((r.set_ref k o).1.template.content = r.template.content ∧
      keysOf (r.set_ref k o).1.template.placeholders =
        keysOf r.template.placeholders) :=
  set_ref_fst_spec r k o

theorem setRefGlobalLoop_keys (k : Str) (o : TronRef) (ts : List TronRef) :
    ((setRefGlobalLoop k o ts).1.map
        (fun r => (r.template.content, keysOf r.template.placeholders))) =
      ts.map (fun r => (r.template.content, keysOf r.template.placeholders)) := by
  induction ts with
  | nil => rfl
  | cons r rest ih =>
    simp only [setRefGlobalLoop]
    by_cases h : declares r k
    · rw [if_pos h]
      rcases hsr : r.set_ref k o with ⟨r', res⟩
      have hspec := set_ref_fst_spec r k o
      rw [hsr] at hspec
      have hc : r'.template.content = r.template.content := hspec.1
      have hk2 : keysOf r'.template.placeholders =
          keysOf r.template.placeholders := hspec.2
      cases res with
      | error e =>
        simp only [List.map_cons, hc, hk2]
      | ok u =>
        simp only [List.map_cons, hc, hk2, ih]
    · rw [if_neg h]
      simp only [List.map_cons, ih]

theorem scanPH_single (n : Str) (h1 : n ≠ []) (h2 : ∀ c ∈ n, c ≠ ']') :
    scanPH ('@' :: '[' :: (n ++ [']', '@'])) = [n] := by
  have hp : ∀ c ∈ n, (c != ']') = true := fun c hc => by
    simpa using h2 c hc
  rw [scanPH]
  rw [List.takeWhile_append_of_pos hp, List.dropWhile_append_of_pos hp]
  simp [isClose, h1, scanPH]

/-! ### Claims -/

/-- C1, counterexample.  The claim asserts that a fully-bound render leaves
no residual placeholder marker.  For the template built from `"@[ x ]@"`
the single placeholder `x` is bound to `"v"`, every value is non-empty,
render succeeds — yet it returns `"@[ x ]@"` unchanged, which still
contains a syntactic placeholder marker (the scan extracts `" x "`), because
substitution searches only for the literal `"@[x]@"`. -/
theorem C1_counterexample :
    (∀ p ∈ ((TronTemplate.new "@[ x ]@".toList).set "x".toList "v".toList).1.placeholders,
        p.2 ≠ []) ∧
    ((TronTemplate.new "@[ x ]@".toList).set "x".toList "v".toList).1.render =
        Except.ok "@[ x ]@".toList ∧
    scanPH "@[ x ]@".toList ≠ [] := by
  refine ⟨?_, ?_, ?_⟩ <;>
    simp [TronTemplate.new, TronTemplate.set, TronTemplate.render,
      extractPlaceholders, scanPH, isClose, insertPH, hasKey, setKey, trim,
      renderLoop, replaceAll, marker, startsWith]

/-- C1, amended: if any placeholder still holds the empty-string unbound
sentinel, `render` fails with `MissingPlaceholder` (naming some unbound
placeholder); if every placeholder is bound to a non-empty value, `render`
succeeds and returns `content` with, for each map entry in iteration order,
every literal occurrence of `@[name]@` replaced by the bound value.
(Markers whose bracketed text is not literally a key — e.g. whitespace
around the name — and markers reintroduced by substituted values may
remain in the output.) -/
theorem C1_amended_render (t : TronTemplate) :
    ((∃ p ∈ t.placeholders, p.2 = []) →
      ∃ k, t.render = Except.error (TronError.MissingPlaceholder k) ∧
        (k, []) ∈ t.placeholders) ∧
    ((∀ p ∈ t.placeholders, p.2 ≠ []) →
      t.render = Except.ok (substAll t.placeholders t.content)) :=
  ⟨fun h => renderLoop_err t.placeholders t.content h,
   fun h => renderLoop_ok t.placeholders t.content h⟩

/-- C1, witness: the amended theorem applied to the unbound template
`"@[a]@"` (render fails) and to the same template with `a` bound to `"w"`
(render succeeds, producing `"w"`). -/
theorem C1_witness :
    (∃ k, (TronTemplate.new "@[a]@".toList).render =
        Except.error (TronError.MissingPlaceholder k) ∧
      (k, []) ∈ (TronTemplate.new "@[a]@".toList).placeholders) ∧
    ((TronTemplate.new "@[a]@".toList).set "a".toList "w".toList).1.render =
      Except.ok "w".toList :=
  ⟨(C1_amended_render (TronTemplate.new "@[a]@".toList)).1
      (by simp [TronTemplate.new, extractPlaceholders, scanPH, isClose,
        insertPH, hasKey, trim]),
   ((C1_amended_render
        ((TronTemplate.new "@[a]@".toList).set "a".toList "w".toList).1).2
      (by simp [TronTemplate.new, TronTemplate.set, extractPlaceholders,
        scanPH, isClose, insertPH, hasKey, setKey, trim])).trans
      (by simp [TronTemplate.new, TronTemplate.set, extractPlaceholders,
        scanPH, isClose, insertPH, hasKey, setKey, trim, substAll,
        replaceAll, marker, startsWith])⟩

/-- C2, counterexample.  The claim restricts names only by "must not
contain `]@`".  The name `"a]b"` contains no `]@`, yet the text
`"@[a]b]@"` yields an empty placeholder map (no match at all), not the
singleton `{trim "a]b"}`: the regex `@\[([^]]+)\]@` forbids every `]`
inside a name. -/
theorem C2_counterexample :
    ("a]b".toList ≠ [] ∧ occursIn "]@".toList "a]b".toList = false) ∧
    keysOf (extractPlaceholders ("@[".toList ++ "a]b".toList ++ "]@".toList))
        = [] ∧
    keysOf (extractPlaceholders ("@[".toList ++ "a]b".toList ++ "]@".toList))
        ≠ [trim "a]b".toList] := by
  refine ⟨⟨by decide, by decide⟩, ?_, ?_⟩ <;>
    simp [extractPlaceholders, scanPH, isClose, insertPH, hasKey, trim,
      keysOf]

/-- C2, amended: placeholder names are unrestricted except that they must
not contain the character `]`: for every non-empty string `n` without
`]`, constructing a template from `"@[" ++ n ++ "]@"` yields a placeholder
map whose key list is exactly `[trim n]`. -/
theorem C2_amended_names (n : Str) (h1 : n ≠ []) (h2 : ∀ c ∈ n, c ≠ ']') :
    keysOf (extractPlaceholders ('@' :: '[' :: (n ++ [']', '@']))) =
      [trim n] := by
  rw [extractPlaceholders, scanPH_single n h1 h2]
  simp [insertPH, hasKey, keysOf]

/-- C2, witness: the amended theorem applied to the name `"ab"`. -/
theorem C2_witness :
    keysOf (extractPlaceholders ('@' :: '[' :: ("ab".toList ++ [']', '@'])))
      = [trim "ab".toList] :=
  C2_amended_names "ab".toList (by decide) (by decide)

/-- C3: after a successful `set_ref` on handle `A` composing in handle `B`,
`A`'s dependency list is `A`'s previous dependency list followed by `B`'s
dependency list, in order. -/
theorem C3_set_ref_dependencies (A : TronRef) (k : Str) (B : TronRef)
    (h : (A.set_ref k B).2 = Except.ok ()) :
    (A.set_ref k B).1.dependencies = A.dependencies ++ B.dependencies := by
  obtain ⟨rendered, _, heq, _⟩ := set_ref_ok_spec h
  rw [heq]

/-- C3, witness: composing a handle with dependency `"d1"` into a handle
with dependency `"d2"` yields the dependency list `["d2", "d1"]`. -/
theorem C3_witness :
    ((((TronRef.new (TronTemplate.new "@[x]@".toList)).with_dependency
          "d2".toList).set_ref "x".toList
        ((TronRef.new (TronTemplate.new "b".toList)).with_dependency
          "d1".toList)).1.dependencies =
      ["d2".toList] ++ ["d1".toList]) :=
  C3_set_ref_dependencies _ _ _
    (by simp [TronRef.new, TronRef.with_dependency, TronRef.set_ref,
      TronRef.render, TronTemplate.new, TronTemplate.set,
      TronTemplate.render, extractPlaceholders, scanPH, isClose, insertPH,
      hasKey, setKey, trim, renderLoop, replaceAll, marker, startsWith])

/-- C4: the key set of a template's placeholder map equals the set of
distinct trimmed placeholder names syntactically present in `content` at
construction (and the key list is duplicate-free), and every subsequent
operation — `set`, `set_ref`, `set_global`, `set_ref_global` — preserves
each template's content and its placeholder key list exactly, on success
and on failure alike (`render` takes `&self` and is modelled as a pure
function, so it cannot change any state).  Binding only changes values. -/
theorem C4_keyset_invariant :
    (∀ c : Str,
      (keysOf (TronTemplate.new c).placeholders).toFinset =
          ((scanPH c).map trim).toFinset ∧
        (keysOf (TronTemplate.new c).placeholders).Nodup) ∧
    (∀ (t : TronTemplate) (k v : Str),
      (t.set k v).1.content = t.content ∧
        keysOf (t.set k v).1.placeholders = keysOf t.placeholders) ∧
    (∀ (r : TronRef) (k : Str) (o : TronRef),
      (r.set_ref k o).1.template.content = r.template.content ∧
        keysOf (r.set_ref k o).1.template.placeholders =
          keysOf r.template.placeholders) ∧
    (∀ (a : TronAssembler) (k v : Str),
      (a.set_global k v).1.templates.map
          (fun r => keysOf r.template.placeholders) =
        a.templates.map (fun r => keysOf r.template.placeholders)) ∧
    (∀ (a : TronAssembler) (k : Str) (o : TronRef),
      (a.set_ref_global k o).1.templates.map
          (fun r => keysOf r.template.placeholders) =
        a.templates.map (fun r => keysOf r.template.placeholders)) := by
  refine ⟨?_, ?_, ?_, ?_, ?_⟩
  · intro c
    constructor
    · have h := extract_foldl_toFinset (scanPH c) []
      simpa [TronTemplate.new, extractPlaceholders, keysOf] using h
    · exact nodup_keysOf_extract_foldl _ [] (by simp [keysOf])
  · exact fun t k v => set_fst_spec t k v
  · exact fun r k o => set_ref_fst_spec r k o
  · intro a k v
    simp only [TronAssembler.set_global, setGlobalLoop_spec, List.map_map]
    apply List.map_congr_left
    intro r _
    by_cases h : declares r k
    · simp [h, bindValue, keysOf_setKey, Function.comp]
    · simp [h, Function.comp]
  · intro a k o
    have h := congrArg (List.map Prod.snd) (setRefGlobalLoop_keys k o a.templates)
    simpa [TronAssembler.set_ref_global, List.map_map, Function.comp] using h

/-- C5: `set(name, v)` on a template that does not declare `name` fails
with `MissingPlaceholder(name)` and leaves the template (content and
placeholder map) exactly as it was, for every value `v`. -/
theorem C5_closed_world (t : TronTemplate) (k v : Str)
    (h : k ∉ keysOf t.placeholders) :
    t.set k v = (t, Except.error (TronError.MissingPlaceholder k)) := by
  apply set_of_not_hasKey
  cases hk : hasKey t.placeholders k with
  | false => rfl
  | true => exact absurd (hasKey_iff_mem.mp hk) h

/-- C5, witness: binding the undeclared name `"b"` on the template built
from `"@[a]@"` fails and returns the template unchanged. -/
theorem C5_witness :
    (TronTemplate.new "@[a]@".toList).set "b".toList "w".toList =
      (TronTemplate.new "@[a]@".toList,
        Except.error (TronError.MissingPlaceholder "b".toList)) :=
  C5_closed_world _ _ _
    (by simp [TronTemplate.new, extractPlaceholders, scanPH, isClose,
      insertPH, hasKey, trim, keysOf])

/-- C6: `set_global(name, value)` always succeeds; every handle whose
template declares `name` gets the value bound (its placeholder map is
updated at that key only), and every handle that does not declare `name`
is left completely unchanged. -/
theorem C6_set_global_broadcast (a : TronAssembler) (k v : Str) :
    a.set_global k v =
      ({ templates := a.templates.map
            (fun r => if declares r k then bindValue r k v else r) },
        Except.ok ()) := by
  unfold TronAssembler.set_global
  rw [setGlobalLoop_spec]

/-- C7: when every handle renders successfully, `render_all` returns the
concatenation, in insertion order, of each handle's render result followed
by a single newline. -/
theorem C7_render_all_concat (a : TronAssembler) (outs : List Str)
    (h : a.templates.map TronRef.render = outs.map Except.ok) :
    a.render_all = Except.ok ((outs.map (fun s => s ++ ['\n'])).flatten) := by
  unfold TronAssembler.render_all
  simpa using renderAllLoop_ok a.templates outs [] h

/-- C7, witness: an assembler holding two placeholder-free handles whose
contents are `"a"` and `"b"` renders to exactly `"a\nb\n"`. -/
theorem C7_witness :
    ((TronAssembler.new.add_template
        (TronRef.new (TronTemplate.new "a".toList))).add_template
      (TronRef.new (TronTemplate.new "b".toList))).render_all =
      Except.ok "a\nb\n".toList :=
  (C7_render_all_concat _ ["a".toList, "b".toList]
      (by simp [TronAssembler.new, TronAssembler.add_template, TronRef.new,
        TronRef.render, TronTemplate.new, TronTemplate.render,
        extractPlaceholders, scanPH, renderLoop])).trans
    (by simp)

/-- C8: if some handle fails to render, `render_all` returns the error of
the first failing handle in insertion order and no partial result; the
handles after the failure play no part in the outcome. -/
theorem C8_render_all_first_error (a : TronAssembler) (ts1 : List TronRef)
    (r : TronRef) (ts2 : List TronRef) (e : TronError)
    (hsplit : a.templates = ts1 ++ r :: ts2)
    (h1 : ∀ x ∈ ts1, ∃ s, x.render = Except.ok s)
    (h2 : r.render = Except.error e) :
    a.render_all = Except.error e := by
  unfold TronAssembler.render_all
  rw [hsplit]
  exact renderAllLoop_err ts1 r ts2 e [] h1 h2

/-- C8, witness: an assembler whose first handle has an unbound
placeholder fails `render_all` with that handle's error, though the second
handle would render fine. -/
theorem C8_witness :
    ((TronAssembler.new.add_template
        (TronRef.new (TronTemplate.new "@[x]@".toList))).add_template
      (TronRef.new (TronTemplate.new "b".toList))).render_all =
      Except.error (TronError.MissingPlaceholder "x".toList) :=
  C8_render_all_first_error _ []
    (TronRef.new (TronTemplate.new "@[x]@".toList))
    [TronRef.new (TronTemplate.new "b".toList)] _
    (by simp [TronAssembler.new, TronAssembler.add_template])
    (by simp)
    (by simp [TronRef.new, TronRef.render, TronTemplate.new,
      TronTemplate.render, extractPlaceholders, scanPH, isClose, insertPH,
      hasKey, trim, renderLoop])

/-- C9: a failing `set_ref` — whether the child's render fails or the name
is not declared on the host — leaves the host handle completely unchanged:
same template (content and bindings) and same dependency list. -/
theorem C9_set_ref_rollback (A : TronRef) (k : Str) (B : TronRef)
    (e : TronError) (h : (A.set_ref k B).2 = Except.error e) :
    (A.set_ref k B).1 = A :=
  set_ref_error_spec h

/-- C9, witness: composing into an undeclared placeholder name fails and
returns the host handle exactly as it was. -/
theorem C9_witness :
    (((TronRef.new (TronTemplate.new "c".toList)).set_ref "x".toList
        (TronRef.new (TronTemplate.new "b".toList))).1 =
      TronRef.new (TronTemplate.new "c".toList)) :=
  C9_set_ref_rollback _ _ _ (TronError.MissingPlaceholder "x".toList)
    (by simp [TronRef.new, TronRef.set_ref, TronTemplate.new,
      TronTemplate.set, TronTemplate.render, extractPlaceholders, scanPH,
      isClose, insertPH, hasKey, trim, renderLoop])

/-- C10: a marker with whitespace around the name, such as `"@[ x ]@"`, is
extracted under its trimmed name `x`, but rendering never substitutes it:
binding `x` to any non-empty value succeeds and `render` returns the
original text unchanged, since substitution searches only for the literal
`"@[x]@"`. -/
theorem C10_whitespace_marker :
    keysOf (TronTemplate.new "@[ x ]@".toList).placeholders = ["x".toList] ∧
    ∀ v : Str, v ≠ [] →
      ((TronTemplate.new "@[ x ]@".toList).set "x".toList v).2 =
          Except.ok () ∧
        ((TronTemplate.new "@[ x ]@".toList).set "x".toList v).1.render =
          Except.ok "@[ x ]@".toList := by
  constructor
  · simp [TronTemplate.new, extractPlaceholders, scanPH, isClose, insertPH,
      hasKey, trim, keysOf]
  · intro v hv
    constructor <;>
      simp [TronTemplate.new, TronTemplate.set, TronTemplate.render,
        extractPlaceholders, scanPH, isClose, insertPH, hasKey, setKey,
        trim, renderLoop, replaceAll, marker, startsWith, hv]

/-- C10, witness: the theorem applied at the concrete value `"v"`. -/
theorem C10_witness :
    ((TronTemplate.new "@[ x ]@".toList).set "x".toList "v".toList).1.render
      = Except.ok "@[ x ]@".toList :=
  (C10_whitespace_marker.2 "v".toList (by decide)).2

end Tron
